import Mathlib

/-!
Verification of the events runner (`events_from_detections.py`).

This file gives a shallow embedding, in Lean 4, of the core decision engine
of the events runner: geometry (ray casting), the candidate filter
(ROI + confidence), the `Track` entity with its two persistence policies,
the greedy per-frame association engine, and the event synthesizer
(sorting and id assignment).  Numeric values that the Python code holds in
floats (coordinates, confidences, timestamps) are embedded as rationals;
every float operation the verified claims depend on is a comparison, an
addition, a subtraction or a multiplication or division by nonzero values,
all of which are exact in this embedding.  Python ints are embedded as
integers (counters that are naturally nonnegative keep the integer type of
the source so that arbitrary CLI values are representable).

The one systematic transformation: the source compares Euclidean distances
computed with `math.hypot`.  Since `hypot a b` is nonnegative and strictly
monotone in `a^2 + b^2`, the comparisons `hypot dx dy <= d` and
`hypot dx1 dy1 < hypot dx2 dy2` are embedded as, respectively,
`0 <= d AND dx^2+dy^2 <= d^2` and `dx1^2+dy1^2 < dx2^2+dy2^2`, which are
exactly equivalent and keep every definition executable over rationals.
-/

/-! ## Geometry (source: point_in_polygon, bbox_center_xyxy, dist) -/

/-- Crossing test for one polygon edge against the horizontal ray from the
query point: the `(y1 > y) != (y2 > y)` guard of `point_in_polygon`
(source line 22). -/
def edge_crosses (y : ℚ) (p1 p2 : ℚ × ℚ) : Bool :=
  decide (p1.2 > y) != decide (p2.2 > y)

/-- The list of polygon edges `(poly[i], poly[(i+1) % n])` iterated by the
loop of `point_in_polygon` (source lines 19-21). -/
def polygon_edges (poly : List (ℚ × ℚ)) : List ((ℚ × ℚ) × (ℚ × ℚ)) :=
  poly.zip (poly.rotate 1)

/-- Ray-casting point-in-polygon test (source lines 14-26).  A polygon with
fewer than 3 vertices yields `false` immediately.  In the embedding the
division is total (division by zero yields 0 over ℚ); the safety theorem
below shows the `edge_crosses` guard never lets a zero denominator through. -/
def point_in_polygon (x y : ℚ) (poly : List (ℚ × ℚ)) : Bool :=
  if poly.length < 3 then false
  else
    (polygon_edges poly).foldl
      (fun inside e =>
        if edge_crosses y e.1 e.2 then
          let x_int := e.1.1 + (y - e.1.2) * (e.2.1 - e.1.1) / (e.2.2 - e.1.2)
          if x_int > x then !inside else inside
        else inside)
      false

/-- Center of an `(x1, y1, x2, y2)` box: `0.5 * (x1 + x2)` resp.
`0.5 * (y1 + y2)` in the source (line 29). -/
def bbox_center_xyxy (x1 y1 x2 y2 : ℚ) : ℚ × ℚ :=
  ((x1 + x2) / 2, (y1 + y2) / 2)

/-- Squared Euclidean distance.  The source computes
`math.hypot(a0 - b0, a1 - b1)` (line 32); all its uses are comparisons,
embedded through this square (see the header note). -/
def distSq (a b : ℚ × ℚ) : ℚ :=
  (a.1 - b.1) ^ 2 + (a.2 - b.2) ^ 2

/-- Embedding of the comparison `dist a b <= d` on reals:
equivalent to `0 <= d` together with `distSq a b <= d^2`. -/
def distLe (a b : ℚ × ℚ) (d : ℚ) : Bool :=
  decide (0 ≤ d) && decide (distSq a b ≤ d ^ 2)

/-! ## Data model -/

/-- A raw detection of a frame record (required keys of the schema,
source line 49). -/
structure RawDet where
  class_name : String
  confidence : ℚ
  x1 : ℚ
  y1 : ℚ
  x2 : ℚ
  y2 : ℚ
deriving DecidableEq

/-- A candidate: the `det_obj` built after the ROI and confidence gates
(source lines 413-420). -/
structure Cand where
  class_name : String
  confidence : ℚ
  bbox_xyxy : ℚ × ℚ × ℚ × ℚ
  center_xy : ℚ × ℚ
  frame_index : ℤ
  timestamp_s : ℚ
deriving DecidableEq

/-- A member record appended on every accepted hit (source lines 222-229). -/
structure Member where
  frame_index : ℤ
  timestamp_s : ℚ
  class_name : String
  confidence : ℚ
  bbox_xyxy : ℚ × ℚ × ℚ × ℚ
  center_xy : ℚ × ℚ
deriving DecidableEq

/-- The mutable track entity (source lines 121-169).  `track_mode` and
`persist_mode` are the literal strings of the source. -/
structure Track where
  track_id : ℕ
  track_mode : String
  persist_mode : String
  start_frame : ℤ
  end_frame : ℤ
  start_time_s : ℚ
  end_time_s : ℚ
  last_frame_seen : ℤ
  missed : ℤ
  members : List Member
  max_confidence : ℚ
  rep_frame : ℤ
  rep_bbox : ℚ × ℚ × ℚ × ℚ
  rep_class_name : String
  class_hist : List (String × ℤ)
  last_center : ℚ × ℚ
  hits_total : ℤ
  hits_consec : ℤ
  max_hits_consec : ℤ
  hit_frames : List ℤ
  confirmed_at_frame : Option ℤ
  confirmed_start_frame : Option ℤ
  max_hits_in_window : ℤ
deriving DecidableEq

/-- Ordered class histogram bump (`_bump_class`, source lines 173-174);
a Python dict keeps insertion order, embedded as an association list. -/
def bump_class : List (String × ℤ) → String → List (String × ℤ)
  | [], cls => [(cls, 1)]
  | (c, n) :: rest, cls =>
    if c = cls then (c, n + 1) :: rest else (c, n) :: bump_class rest cls

/-- Matching gate (`Track.can_match`, source lines 176-180): the class test
applies only in track-mode "class"; the spatial test is the distance
comparison against the pixel threshold. -/
def Track.can_match (t : Track) (det : Cand) (dist_px : ℚ) : Bool :=
  if t.track_mode = "class" then
    if det.class_name ≠ t.rep_class_name then false
    else distLe t.last_center det.center_xy dist_px
  else distLe t.last_center det.center_xy dist_px

/-- Squared form of `Track.match_distance` (source lines 182-183). -/
def Track.match_distanceSq (t : Track) (det : Cand) : ℚ :=
  distSq t.last_center det.center_xy

/-- Diagnostic window recount (`_update_max_hits_in_window`, source
lines 185-188). -/
def Track.update_max_hits_in_window (t : Track) (frame_index window_frames : ℤ) : Track :=
  let lo := frame_index - (window_frames - 1)
  let in_window := t.hit_frames.filter (fun f => decide (lo ≤ f))
  { t with max_hits_in_window := max t.max_hits_in_window (in_window.length : ℤ) }

/-- Base mutations of `Track.update` (source lines 199-229): hit counters,
temporal extent, last seen bookkeeping, representative selection and the
member append. -/
def Track.update_base (t : Track) (frame_index : ℤ) (timestamp_s : ℚ) (det : Cand) : Track :=
  let hc : ℤ := if frame_index = t.last_frame_seen + 1 then t.hits_consec + 1 else 1
  let rep :=
    if det.confidence > t.max_confidence then
      (det.confidence, frame_index, det.bbox_xyxy, det.class_name)
    else
      (t.max_confidence, t.rep_frame, t.rep_bbox, t.rep_class_name)
  let newMember : Member :=
    { frame_index := frame_index
      timestamp_s := timestamp_s
      class_name := det.class_name
      confidence := det.confidence
      bbox_xyxy := det.bbox_xyxy
      center_xy := det.center_xy }
  let t1 : Track := { t with
    hits_consec := hc
    max_hits_consec := max t.max_hits_consec hc
    hits_total := t.hits_total + 1
    hit_frames := t.hit_frames ++ [frame_index]
    end_frame := frame_index
    end_time_s := timestamp_s
    last_frame_seen := frame_index
    missed := 0
    last_center := det.center_xy
    class_hist := bump_class t.class_hist det.class_name
    max_confidence := rep.1
    rep_frame := rep.2.1
    rep_bbox := rep.2.2.1
    rep_class_name := rep.2.2.2
    members := t.members ++ [newMember] }
  t1

/-- Persistence confirmation block of `Track.update` (source lines
231-247), applied after the base mutations.  The source computes
`min(in_window)` on a list that is nonempty whenever the confirmation
branch is reached with a positive window size; `List.min?` embeds
that `min`. -/
def Track.update_confirm (t1 : Track) (frame_index n_consec hits_needed window_frames : ℤ) :
    Track :=
  match t1.confirmed_at_frame with
  | none =>
    if t1.persist_mode = "consecutive" then
      if t1.hits_consec ≥ n_consec then
        { t1 with confirmed_at_frame := some frame_index
                  confirmed_start_frame := some (frame_index - (n_consec - 1)) }
      else t1
    else if t1.persist_mode = "window" then
      let t2 := t1.update_max_hits_in_window frame_index window_frames
      let lo := frame_index - (window_frames - 1)
      let in_window := t2.hit_frames.filter (fun f => decide (lo ≤ f))
      if (in_window.length : ℤ) ≥ hits_needed then
        { t2 with confirmed_at_frame := some frame_index
                  confirmed_start_frame := in_window.min? }
      else t2
    else t1
  | some _ =>
    if t1.persist_mode = "window" then
      t1.update_max_hits_in_window frame_index window_frames
    else t1

/-- One hit applied to a track (`Track.update`, source lines 190-247):
the base mutations followed by the persistence confirmation block. -/
def Track.update (t : Track) (frame_index : ℤ) (timestamp_s : ℚ) (det : Cand)
    (n_consec hits_needed window_frames : ℤ) : Track :=
  (t.update_base frame_index timestamp_s det).update_confirm
    frame_index n_consec hits_needed window_frames

/-- Track construction (`Track.__init__`, source lines 122-171): the field
field setup of lines 134-169 followed by the self-update of line 171. -/
def Track.mk0 (track_id : ℕ) (frame_index : ℤ) (timestamp_s : ℚ) (det : Cand)
    (track_mode persist_mode : String) : Track :=
  { track_id := track_id
    track_mode := track_mode
    persist_mode := persist_mode
    start_frame := frame_index
    end_frame := frame_index
    start_time_s := timestamp_s
    end_time_s := timestamp_s
    last_frame_seen := frame_index
    missed := 0
    members := []
    max_confidence := det.confidence
    rep_frame := frame_index
    rep_bbox := det.bbox_xyxy
    rep_class_name := det.class_name
    class_hist := bump_class [] det.class_name
    last_center := det.center_xy
    hits_total := 0
    hits_consec := 0
    max_hits_consec := 0
    hit_frames := []
    confirmed_at_frame := none
    confirmed_start_frame := none
    max_hits_in_window := 1 }

/-- Models the full constructor call `Track(...)`. -/
def Track.spawn (track_id : ℕ) (frame_index : ℤ) (timestamp_s : ℚ) (det : Cand)
    (track_mode persist_mode : String) (n_consec hits_needed window_frames : ℤ) : Track :=
  (Track.mk0 track_id frame_index timestamp_s det track_mode persist_mode).update
    frame_index timestamp_s det n_consec hits_needed window_frames

/-! ## ROI loading (source: load_roi, lines 252-260) -/

/-- Parsed content of an ROI file as far as the loader inspects it:
whether the `polygon` key is present (and its vertex list when it is),
plus the optional provenance fields the loader defaults. -/
structure RoiJson where
  polygon : Option (List (ℚ × ℚ))
  roi_id : Option String
  roi_version : Option String
deriving DecidableEq

/-- Validation performed by `load_roi` (source lines 252-260): the only
check is that the `polygon` key is present; any vertex list, of any
length, is accepted. -/
def load_roi (roi : RoiJson) : Except String RoiJson :=
  match roi.polygon with
  | none => Except.error "ROI file missing polygon"
  | some _ => Except.ok roi

/-! ## Candidate filter (source: main, lines 389-431) -/

/-- Outcome of the per-detection gate of the candidate loop. -/
inductive FilterOutcome
  | discardedByRoi
  | discardedByConf
  | candidate (c : Cand)
deriving DecidableEq

/-- The candidate built from a raw detection (source lines 413-420). -/
def mk_cand (frame_index : ℤ) (timestamp_s : ℚ) (d : RawDet) : Cand :=
  { class_name := d.class_name
    confidence := d.confidence
    bbox_xyxy := (d.x1, d.y1, d.x2, d.y2)
    center_xy := bbox_center_xyxy d.x1 d.y1 d.x2 d.y2
    frame_index := frame_index
    timestamp_s := timestamp_s }

/-- Per-detection gate (source lines 397-421): ROI test first, then the
strict confidence comparison `conf < args.conf`. -/
def filter_det (poly : List (ℚ × ℚ)) (conf_floor : ℚ) (frame_index : ℤ)
    (timestamp_s : ℚ) (d : RawDet) : FilterOutcome :=
  let c := bbox_center_xyxy d.x1 d.y1 d.x2 d.y2
  if !(point_in_polygon c.1 c.2 poly) then .discardedByRoi
  else if d.confidence < conf_floor then .discardedByConf
  else .candidate (mk_cand frame_index timestamp_s d)

/-- Candidate list of a frame together with the per-frame increments of
the `discarded_by_roi` and `discarded_by_conf` counters
(source lines 389-421). -/
def build_candidates (poly : List (ℚ × ℚ)) (conf_floor : ℚ) (frame_index : ℤ)
    (timestamp_s : ℚ) (dets : List RawDet) : List Cand × ℕ × ℕ :=
  dets.foldl
    (fun acc d =>
      match filter_det poly conf_floor frame_index timestamp_s d with
      | .discardedByRoi => (acc.1, acc.2.1 + 1, acc.2.2)
      | .discardedByConf => (acc.1, acc.2.1, acc.2.2 + 1)
      | .candidate c => (acc.1 ++ [c], acc.2.1, acc.2.2))
    ([], 0, 0)

/-! ## Association engine (source: main, lines 433-483) -/

/-- Run configuration (the CLI arguments the engine reads,
source lines 279-288). -/
structure Config where
  conf : ℚ
  dist_px : ℚ
  gap_frames : ℤ
  track_mode : String
  persist_mode : String
  n_consec : ℤ
  hits : ℤ
  window : ℤ
deriving DecidableEq

/-- Tracking state carried across frames (source lines 336-338) plus the
per-frame `matched_track_ids` set (source line 434). -/
structure AssocState where
  active : List Track
  finished : List Track
  next_track_id : ℕ
  matched_ids : List ℕ
deriving DecidableEq

/-- The scan of `active` for the best matching track (source lines
436-444): keeps the first track attaining the minimal distance, since a
later track replaces the current best only on a strictly smaller distance.
Returns the position in `active`, the track, and its squared distance. -/
def best_match (det : Cand) (dist_px : ℚ) : List Track → Option (ℕ × Track × ℚ)
  | [] => none
  | t :: ts =>
    let rest := (best_match det dist_px ts).map (fun r => (r.1 + 1, r.2))
    if t.can_match det dist_px then
      let d := t.match_distanceSq det
      match rest with
      | none => some (0, t, d)
      | some (j, u, dj) => if dj < d then some (j, u, dj) else some (0, t, d)
    else rest

/-- Processing of one candidate (source lines 435-470): update the nearest
matching active track, or spawn a new track when none matches; either way
the touched track id joins `matched_track_ids`.  A freshly spawned track is
appended to `active` and is therefore visible to the remaining candidates
of the same frame. -/
def process_candidate (cfg : Config) (frame_index : ℤ) (timestamp_s : ℚ)
    (s : AssocState) (det : Cand) : AssocState :=
  match best_match det cfg.dist_px s.active with
  | none =>
    let t := Track.spawn s.next_track_id frame_index timestamp_s det
      cfg.track_mode cfg.persist_mode cfg.n_consec cfg.hits cfg.window
    { s with active := s.active ++ [t]
             next_track_id := s.next_track_id + 1
             matched_ids := t.track_id :: s.matched_ids }
  | some (i, t, _) =>
    let u := t.update frame_index timestamp_s det cfg.n_consec cfg.hits cfg.window
    { s with active := s.active.set i u
             matched_ids := t.track_id :: s.matched_ids }

/-- The missed bump applied after a frame to tracks that were not matched
in it (source lines 475-476). -/
def bump_missed (matched_ids : List ℕ) (t : Track) : Track :=
  if t.track_id ∈ matched_ids then t else { t with missed := t.missed + 1 }

/-- End-of-frame aging (source lines 472-481): unmatched tracks get
`missed + 1`; tracks with `missed > gap_frames` move to `finished`, the
rest stay active; the matched set is cleared for the next frame. -/
def end_frame (cfg : Config) (s : AssocState) : AssocState :=
  let step := fun (acc : List Track × List Track) (t : Track) =>
    let t := bump_missed s.matched_ids t
    if t.missed > cfg.gap_frames then (acc.1 ++ [t], acc.2)
    else (acc.1, acc.2 ++ [t])
  let r := s.active.foldl step (s.finished, [])
  { active := r.2, finished := r.1, next_track_id := s.next_track_id, matched_ids := [] }

/-- A frame as the engine consumes it after validation. -/
structure Frame where
  frame_index : ℤ
  timestamp_s : ℚ
  dets : List RawDet
deriving DecidableEq

/-- One full frame step: candidate filter, greedy association in candidate
order, then aging (source lines 341-481). -/
def process_frame (cfg : Config) (poly : List (ℚ × ℚ)) (s : AssocState)
    (fr : Frame) : AssocState :=
  let cands := (build_candidates poly cfg.conf fr.frame_index fr.timestamp_s fr.dets).1
  let s1 := { s with matched_ids := [] }
  let s2 := cands.foldl (process_candidate cfg fr.frame_index fr.timestamp_s) s1
  end_frame cfg s2

/-- Fresh tracking state (source lines 336-338). -/
def init_state : AssocState :=
  { active := [], finished := [], next_track_id := 1, matched_ids := [] }

/-- The whole stream reduction including the final flush
`finished.extend(active)` (source line 483). -/
def run_stream (cfg : Config) (poly : List (ℚ × ℚ)) (frames : List Frame) : AssocState :=
  let s := frames.foldl (process_frame cfg poly) init_state
  { s with finished := s.finished ++ s.active, active := [] }

/-! ## Event synthesis (source: main, lines 485-542) -/

/-- Lookup in the `member_map` dict (source lines 486-487): a dict built
by insertion keeps, per frame index, the last member inserted. -/
def member_at (t : Track) (f : ℤ) : Option Member :=
  (t.members.filter (fun m => decide (m.frame_index = f))).getLast?

/-- An event before id assignment (the fields of the record built at
source lines 504-531 that the verified claims speak about). -/
structure RawEvent where
  class_name : String
  start_frame : ℤ
  end_frame : ℤ
  start_time_s : ℚ
  end_time_s : ℚ
  duration_s : ℚ
  max_confidence : ℚ
  rep_bbox : ℚ × ℚ × ℚ × ℚ
  rep_frame : ℤ
  trigger_frame : ℤ
deriving DecidableEq

/-- Event construction from one finished track (source lines 490-534):
skips unconfirmed tracks, takes the start time from the member at
`confirmed_start_frame` with fallback `start_time_s`, the end time from
the member at `end_frame` with fallback `end_time_s`, and clamps the
duration at 0. -/
def mk_raw_event (t : Track) : Option RawEvent :=
  match t.confirmed_at_frame, t.confirmed_start_frame with
  | some caf, some csf =>
    let start_frame := csf
    let end_frame := t.end_frame
    let start_time_s :=
      match member_at t start_frame with
      | some m => m.timestamp_s
      | none => t.start_time_s
    let end_time_s :=
      match member_at t end_frame with
      | some m => m.timestamp_s
      | none => t.end_time_s
    some { class_name := t.rep_class_name
           start_frame := start_frame
           end_frame := end_frame
           start_time_s := start_time_s
           end_time_s := end_time_s
           duration_s := max 0 (end_time_s - start_time_s)
           max_confidence := t.max_confidence
           rep_bbox := t.rep_bbox
           rep_frame := t.rep_frame
           trigger_frame := caf }
  | _, _ => none

/-- The raw event list over the finished tracks (source lines 489-534). -/
def raw_events (finished : List Track) : List RawEvent :=
  finished.filterMap mk_raw_event

/-- The sort key comparison of source line 537: lexicographic on
`(start_frame, class_name, end_frame, rep_frame)`.  String comparison is
code-point lexicographic in both Python and Lean. -/
def event_key_le (a b : RawEvent) : Bool :=
  decide (a.start_frame < b.start_frame) ||
  (decide (a.start_frame = b.start_frame) &&
    (decide (a.class_name < b.class_name) ||
      (decide (a.class_name = b.class_name) &&
        (decide (a.end_frame < b.end_frame) ||
          (decide (a.end_frame = b.end_frame) &&
            decide (a.rep_frame ≤ b.rep_frame))))))

/-- The deterministic sort of source line 537; Python `list.sort` is a
stable sort on this key. -/
def sort_events (evs : List RawEvent) : List RawEvent :=
  evs.mergeSort event_key_le

/-- A raw event together with its assigned id (source lines 539-542). -/
structure Event extends RawEvent where
  event_id : String
deriving DecidableEq

/-- Decimal digits padded on the left with zeros to width 4: the format
4-digit form of source line 541. -/
def pad4 (n : ℕ) : String :=
  let s := toString n
  String.mk (List.replicate (4 - s.length) ('0' : Char)) ++ s

/-- The event id string of source line 541. -/
def event_id_str (i : ℕ) : String :=
  "ev_" ++ pad4 i

/-- Sequential id assignment in list order starting at `i`
(source lines 539-542). -/
def assign_ids_from (i : ℕ) : List RawEvent → List Event
  | [] => []
  | e :: es => { e with event_id := event_id_str i } :: assign_ids_from (i + 1) es

/-- Id assignment starting at 1 (source line 539, `enumerate(start=1)`). -/
def assign_ids (evs : List RawEvent) : List Event :=
  assign_ids_from 1 evs

/-- The event synthesizer: raw events, deterministic sort, deterministic
ids (source lines 485-542). -/
def synthesize_events (finished : List Track) : List Event :=
  assign_ids (sort_events (raw_events finished))

/-! ## Helper lemmas -/

theorem update_confirm_preserves (t : Track) (f n h w : ℤ) :
    (t.update_confirm f n h w).start_frame = t.start_frame ∧
    (t.update_confirm f n h w).end_frame = t.end_frame ∧
    (t.update_confirm f n h w).rep_frame = t.rep_frame ∧
    (t.update_confirm f n h w).last_frame_seen = t.last_frame_seen ∧
    (t.update_confirm f n h w).hits_consec = t.hits_consec ∧
    (t.update_confirm f n h w).hit_frames = t.hit_frames ∧
    (t.update_confirm f n h w).members = t.members ∧
    (t.update_confirm f n h w).start_time_s = t.start_time_s ∧
    (t.update_confirm f n h w).end_time_s = t.end_time_s ∧
    (t.update_confirm f n h w).persist_mode = t.persist_mode ∧
    (t.update_confirm f n h w).track_id = t.track_id := by
  unfold Track.update_confirm Track.update_max_hits_in_window
  cases t.confirmed_at_frame <;> dsimp only <;> split_ifs <;> simp

theorem update_confirm_latch (t : Track) (c f n h w : ℤ)
    (hc : t.confirmed_at_frame = some c) :
    (t.update_confirm f n h w).confirmed_at_frame = some c ∧
    (t.update_confirm f n h w).confirmed_start_frame = t.confirmed_start_frame := by
  unfold Track.update_confirm Track.update_max_hits_in_window
  rw [hc]
  dsimp only
  split_ifs <;> simp [hc]

/-! ## Claim theorems -/

/-- C9: `point_in_polygon` is total and never divides by zero.  For every
query point and every edge, an exactly horizontal edge fails the
`edge_crosses` inequality test and is skipped, and whenever the test
passes the denominator `y2 - y1` of the crossing division is nonzero, so
the division is never evaluated with a zero denominator.  (In the source
there is no epsilon constant: the inequality test alone provides the
guarantee.) -/
theorem pip_division_safety (y : ℚ) (p1 p2 : ℚ × ℚ) :
    (p1.2 = p2.2 → edge_crosses y p1 p2 = false) ∧
    (edge_crosses y p1 p2 = true → p2.2 - p1.2 ≠ 0) := by
  constructor
  · intro hEq
    simp [edge_crosses, hEq]
  · intro hCross hDen
    have hEq : p2.2 = p1.2 := by linarith [sub_eq_zero.mp hDen]
    simp [edge_crosses, hEq] at hCross

/-- Witness for C9 at concrete edges: the horizontal edge from (0, 1) to
(2, 1) is skipped for the ray at height 0, and the crossing edge from
(0, 1) to (2, 0) has a nonzero denominator. -/
theorem pip_division_safety_witness :
    edge_crosses 0 (0, 1) (2, 1) = false ∧
    ((2 : ℚ), (0 : ℚ)).2 - ((0 : ℚ), (1 : ℚ)).2 ≠ 0 := by
  constructor
  · exact (pip_division_safety 0 (0, 1) (2, 1)).1 rfl
  · exact (pip_division_safety 0 (0, 1) (2, 0)).2 (by decide)

/-- C6 counterexample: an ROI whose polygon has only 2 points is not
rejected at ROI load time; `load_roi` accepts it, because the loader only
checks that the `polygon` key is present. -/
theorem load_roi_accepts_degenerate :
    load_roi { polygon := some [(0, 0), (1, 1)], roi_id := none, roi_version := none } =
      Except.ok { polygon := some [(0, 0), (1, 1)], roi_id := none, roi_version := none } :=
  rfl

/-- C6 amended: an ROI whose polygon has fewer than 3 points is accepted
at ROI load time (the loader checks only that the `polygon` key is
present); instead `point_in_polygon` yields `false` for every query point
against such a polygon, so every detection is discarded by ROI. -/
theorem degenerate_roi_not_rejected (roi : RoiJson) (poly : List (ℚ × ℚ)) (x y : ℚ)
    (hp : roi.polygon = some poly) (hlen : poly.length < 3) :
    load_roi roi = Except.ok roi ∧ point_in_polygon x y poly = false := by
  constructor
  · unfold load_roi
    rw [hp]
  · unfold point_in_polygon
    rw [if_pos hlen]

/-- Witness for C6 at the 2-point polygon and the query point (5, 7). -/
theorem degenerate_roi_not_rejected_witness :
    load_roi { polygon := some [(0, 0), (1, 1)], roi_id := none, roi_version := none } =
        Except.ok { polygon := some [(0, 0), (1, 1)], roi_id := none, roi_version := none } ∧
      point_in_polygon 5 7 [(0, 0), (1, 1)] = false :=
  degenerate_roi_not_rejected _ _ 5 7 rfl (by decide)

theorem update_base_fields (t : Track) (f : ℤ) (ts : ℚ) (det : Cand) :
    (t.update_base f ts det).start_frame = t.start_frame ∧
    (t.update_base f ts det).end_frame = f ∧
    (t.update_base f ts det).last_frame_seen = f ∧
    (t.update_base f ts det).end_time_s = ts ∧
    (t.update_base f ts det).start_time_s = t.start_time_s ∧
    (t.update_base f ts det).hit_frames = t.hit_frames ++ [f] ∧
    (t.update_base f ts det).confirmed_at_frame = t.confirmed_at_frame ∧
    (t.update_base f ts det).confirmed_start_frame = t.confirmed_start_frame ∧
    (t.update_base f ts det).persist_mode = t.persist_mode ∧
    (t.update_base f ts det).track_id = t.track_id ∧
    (t.update_base f ts det).hits_consec =
      (if f = t.last_frame_seen + 1 then t.hits_consec + 1 else 1) ∧
    ((t.update_base f ts det).rep_frame = f ∨
      (t.update_base f ts det).rep_frame = t.rep_frame) ∧
    (t.update_base f ts det).members = t.members ++
      [{ frame_index := f, timestamp_s := ts, class_name := det.class_name,
         confidence := det.confidence, bbox_xyxy := det.bbox_xyxy,
         center_xy := det.center_xy }] := by
  unfold Track.update_base
  by_cases hconf : det.confidence > t.max_confidence <;> simp [hconf]

theorem update_confirm_consecutive (t : Track) (f n h w : ℤ)
    (hpm : t.persist_mode = "consecutive") (hnone : t.confirmed_at_frame = none) :
    (t.hits_consec ≥ n →
      (t.update_confirm f n h w).confirmed_at_frame = some f ∧
      (t.update_confirm f n h w).confirmed_start_frame = some (f - (n - 1))) ∧
    (t.hits_consec < n → t.update_confirm f n h w = t) := by
  unfold Track.update_confirm
  rw [hnone, hpm]
  dsimp only
  rw [if_pos rfl]
  constructor
  · intro hge
    rw [if_pos hge]
    exact ⟨rfl, rfl⟩
  · intro hlt
    rw [if_neg (by omega)]

/-- C1: consecutive persistence.  For a track in persist-mode
"consecutive", an update at frame `f` sets `hits_consec` back to 1
whenever `f` is not exactly one greater than the previous
`last_frame_seen` and increments it otherwise; while unconfirmed, the
update confirms exactly when the updated `hits_consec` reaches the
threshold `n`, setting `confirmed_at_frame = f` and
`confirmed_start_frame = f - (n - 1)`, and leaves both fields untouched
below the threshold; once confirmed the fields never change. -/
theorem consecutive_persistence_spec (t : Track) (f : ℤ) (ts : ℚ) (det : Cand)
    (n h w : ℤ) (hpm : t.persist_mode = "consecutive") :
    (f ≠ t.last_frame_seen + 1 → (t.update f ts det n h w).hits_consec = 1) ∧
    (f = t.last_frame_seen + 1 →
      (t.update f ts det n h w).hits_consec = t.hits_consec + 1) ∧
    (t.confirmed_at_frame = none →
      (((t.update f ts det n h w).confirmed_at_frame = some f ↔
          (t.update f ts det n h w).hits_consec ≥ n) ∧
        ((t.update f ts det n h w).hits_consec ≥ n →
          (t.update f ts det n h w).confirmed_start_frame = some (f - (n - 1))) ∧
        ((t.update f ts det n h w).hits_consec < n →
          (t.update f ts det n h w).confirmed_at_frame = none ∧
          (t.update f ts det n h w).confirmed_start_frame =
            t.confirmed_start_frame))) ∧
    (∀ c, t.confirmed_at_frame = some c →
      (t.update f ts det n h w).confirmed_at_frame = some c ∧
      (t.update f ts det n h w).confirmed_start_frame = t.confirmed_start_frame) := by
  obtain ⟨-, -, -, -, -, -, hbcaf, hbcsf, hbpm, -, hbhc, -, -⟩ :=
    update_base_fields t f ts det
  obtain ⟨-, -, -, -, hchc, -, -, -, -, -, -⟩ :=
    update_confirm_preserves (t.update_base f ts det) f n h w
  have hu : t.update f ts det n h w =
      (t.update_base f ts det).update_confirm f n h w := rfl
  have huhc : (t.update f ts det n h w).hits_consec =
      (if f = t.last_frame_seen + 1 then t.hits_consec + 1 else 1) := by
    rw [hu, hchc, hbhc]
  refine ⟨?_, ?_, ?_, ?_⟩
  · intro hne
    rw [huhc, if_neg hne]
  · intro heq
    rw [huhc, if_pos heq]
  · intro hnone
    obtain ⟨hconf, hstay⟩ := update_confirm_consecutive (t.update_base f ts det) f n h w
      (by rw [hbpm, hpm]) (by rw [hbcaf, hnone])
    refine ⟨⟨?_, ?_⟩, ?_, ?_⟩
    · intro hcaf
      by_contra hlt
      push_neg at hlt
      have hlt2 : (t.update_base f ts det).hits_consec < n := by
        rw [hu, hchc] at hlt
        exact hlt
      rw [hu, hstay hlt2, hbcaf, hnone] at hcaf
      exact Option.noConfusion hcaf
    · intro hge
      have hge2 : (t.update_base f ts det).hits_consec ≥ n := by
        rw [← hchc, ← hu]
        exact hge
      rw [hu]
      exact (hconf hge2).1
    · intro hge
      have hge2 : (t.update_base f ts det).hits_consec ≥ n := by
        rw [← hchc, ← hu]
        exact hge
      rw [hu]
      exact (hconf hge2).2
    · intro hlt
      have hlt2 : (t.update_base f ts det).hits_consec < n := by
        rw [← hchc, ← hu]
        exact hlt
      rw [hu, hstay hlt2, hbcaf, hbcsf]
      exact ⟨hnone, rfl⟩
  · intro c hc
    obtain ⟨hl1, hl2⟩ := update_confirm_latch (t.update_base f ts det) c f n h w
      (by rw [hbcaf, hc])
    rw [hu]
    exact ⟨hl1, by rw [hl2, hbcsf]⟩

/-- A concrete candidate detection used by witnesses. -/
def wdet : Cand :=
  { class_name := "cup", confidence := 1, bbox_xyxy := (4, 4, 6, 6),
    center_xy := (5, 5), frame_index := 0, timestamp_s := 0 }

/-- A concrete unconfirmed consecutive-mode track used by witnesses: the
state right after spawning at frame 0 with threshold 3. -/
def wtrack : Track := Track.spawn 1 0 0 wdet "class" "consecutive" 3 2 10

/-- Witness for C1: updating the freshly spawned track at frame 1
increments the streak to 2, which stays below the threshold 3, so the
track stays unconfirmed. -/
theorem consecutive_persistence_spec_witness :
    wtrack.persist_mode = "consecutive" ∧
    (wtrack.update 1 0 wdet 3 2 10).hits_consec = wtrack.hits_consec + 1 ∧
    (wtrack.update 1 0 wdet 3 2 10).confirmed_at_frame = none := by
  have hpm : wtrack.persist_mode = "consecutive" := by decide
  have h := consecutive_persistence_spec wtrack 1 0 wdet 3 2 10 hpm
  refine ⟨hpm, h.2.1 (by decide), ?_⟩
  exact ((h.2.2.1 (by decide)).2.2 (by decide)).1

/-- C8: track state invariant.  A freshly constructed track satisfies
`start_frame ≤ rep_frame ≤ end_frame` (with `end_frame = last_frame_seen`),
every update at a strictly later frame preserves it, and once
`confirmed_at_frame` is set no update ever clears or changes it. -/
theorem track_frame_invariant (t : Track) (f : ℤ) (ts : ℚ) (det : Cand) (n h w : ℤ)
    (id0 : ℕ) (f0 : ℤ) (ts0 : ℚ) (det0 : Cand) (tm pm : String) :
    ((Track.spawn id0 f0 ts0 det0 tm pm n h w).start_frame ≤
        (Track.spawn id0 f0 ts0 det0 tm pm n h w).rep_frame ∧
      (Track.spawn id0 f0 ts0 det0 tm pm n h w).rep_frame ≤
        (Track.spawn id0 f0 ts0 det0 tm pm n h w).end_frame ∧
      (Track.spawn id0 f0 ts0 det0 tm pm n h w).end_frame =
        (Track.spawn id0 f0 ts0 det0 tm pm n h w).last_frame_seen) ∧
    (t.start_frame ≤ t.rep_frame → t.rep_frame ≤ t.end_frame →
      t.end_frame = t.last_frame_seen → t.last_frame_seen < f →
      ((t.update f ts det n h w).start_frame ≤ (t.update f ts det n h w).rep_frame ∧
        (t.update f ts det n h w).rep_frame ≤ (t.update f ts det n h w).end_frame ∧
        (t.update f ts det n h w).end_frame =
          (t.update f ts det n h w).last_frame_seen)) ∧
    (∀ c, t.confirmed_at_frame = some c →
      (t.update f ts det n h w).confirmed_at_frame = some c) := by
  have hfields : ∀ (t' : Track) (f' : ℤ) (ts' : ℚ) (det' : Cand),
      (t'.update f' ts' det' n h w).start_frame = t'.start_frame ∧
      (t'.update f' ts' det' n h w).end_frame = f' ∧
      (t'.update f' ts' det' n h w).last_frame_seen = f' ∧
      ((t'.update f' ts' det' n h w).rep_frame = f' ∨
        (t'.update f' ts' det' n h w).rep_frame = t'.rep_frame) := by
    intro t' f' ts' det'
    obtain ⟨hsf, hef, hlf, -, -, -, -, -, -, -, -, hrep, -⟩ :=
      update_base_fields t' f' ts' det'
    obtain ⟨hcs, hce, hcr, hcl, -, -, -, -, -, -, -⟩ :=
      update_confirm_preserves (t'.update_base f' ts' det') f' n h w
    have hu : t'.update f' ts' det' n h w =
        (t'.update_base f' ts' det').update_confirm f' n h w := rfl
    rw [hu, hcs, hce, hcr, hcl]
    exact ⟨hsf, hef, hlf, hrep⟩
  refine ⟨?_, ?_, ?_⟩
  · obtain ⟨hsf, hef, hlf, hrep⟩ := hfields (Track.mk0 id0 f0 ts0 det0 tm pm) f0 ts0 det0
    have hspawn : Track.spawn id0 f0 ts0 det0 tm pm n h w =
        (Track.mk0 id0 f0 ts0 det0 tm pm).update f0 ts0 det0 n h w := rfl
    rw [hspawn]
    have hm0s : (Track.mk0 id0 f0 ts0 det0 tm pm).start_frame = f0 := rfl
    have hm0r : (Track.mk0 id0 f0 ts0 det0 tm pm).rep_frame = f0 := rfl
    rcases hrep with hr | hr <;>
      simp [hsf, hef, hlf, hr, hm0s, hm0r]
  · intro h1 h2 h3 h4
    obtain ⟨hsf, hef, hlf, hrep⟩ := hfields t f ts det
    rcases hrep with hr | hr <;> rw [hsf, hef, hlf, hr] <;> omega
  · intro c hc
    obtain ⟨-, -, -, -, -, -, hbcaf, -, -, -, -, -, -⟩ :=
      update_base_fields t f ts det
    exact (update_confirm_latch (t.update_base f ts det) c f n h w
      (by rw [hbcaf, hc])).1

/-- Witness for C8 at the concrete spawned track and an update one frame
later: the ordering of start, representative and end frames holds, and the
update preserves it. -/
theorem track_frame_invariant_witness :
    (wtrack.start_frame ≤ wtrack.rep_frame ∧
      wtrack.rep_frame ≤ wtrack.end_frame ∧
      wtrack.end_frame = wtrack.last_frame_seen) ∧
    ((wtrack.update 1 0 wdet 3 2 10).start_frame ≤
        (wtrack.update 1 0 wdet 3 2 10).rep_frame ∧
      (wtrack.update 1 0 wdet 3 2 10).rep_frame ≤
        (wtrack.update 1 0 wdet 3 2 10).end_frame ∧
      (wtrack.update 1 0 wdet 3 2 10).end_frame =
        (wtrack.update 1 0 wdet 3 2 10).last_frame_seen) := by
  have h := track_frame_invariant wtrack 1 0 wdet 3 2 10 1 0 0 wdet "class" "consecutive"
  exact ⟨h.1, h.2.1 (by decide) (by decide) (by decide) (by decide)⟩

theorem update_confirm_window (t : Track) (f n h w : ℤ)
    (hpm : t.persist_mode = "window") (hnone : t.confirmed_at_frame = none) :
    (((t.hit_frames.filter (fun g => decide (f - (w - 1) ≤ g))).length : ℤ) ≥ h →
      (t.update_confirm f n h w).confirmed_at_frame = some f ∧
      (t.update_confirm f n h w).confirmed_start_frame =
        (t.hit_frames.filter (fun g => decide (f - (w - 1) ≤ g))).min?) ∧
    (((t.hit_frames.filter (fun g => decide (f - (w - 1) ≤ g))).length : ℤ) < h →
      (t.update_confirm f n h w).confirmed_at_frame = none ∧
      (t.update_confirm f n h w).confirmed_start_frame = t.confirmed_start_frame) := by
  unfold Track.update_confirm Track.update_max_hits_in_window
  rw [hnone, hpm]
  dsimp only
  rw [if_neg (by decide), if_pos rfl]
  constructor
  · intro hge
    rw [if_pos hge]
    exact ⟨rfl, rfl⟩
  · intro hlt
    rw [if_neg (by omega)]
    exact ⟨rfl, rfl⟩

theorem update_confirm_window_diag (t : Track) (f n h w : ℤ)
    (hpm : t.persist_mode = "window") :
    (t.update_confirm f n h w).max_hits_in_window =
      max t.max_hits_in_window
        ((t.hit_frames.filter (fun g => decide (f - (w - 1) ≤ g))).length : ℤ) := by
  unfold Track.update_confirm Track.update_max_hits_in_window
  cases hc : t.confirmed_at_frame <;> rw [hpm] <;> dsimp only
  · rw [if_neg (by decide), if_pos rfl]
    split_ifs <;> rfl
  · rw [if_pos rfl]

/-- Hit frames lying in the trailing window `[f - (w - 1), f]`.  The source
filter keeps `g` with `f - (w - 1) ≤ g` only; the two agree whenever every
recorded hit frame is at most the current frame, which the window
persistence theorem assumes (frames arrive in non-decreasing order). -/
def window_hits (hit_frames : List ℤ) (f w : ℤ) : List ℤ :=
  hit_frames.filter (fun g => decide (f - (w - 1) ≤ g ∧ g ≤ f))

theorem window_hits_eq_filter (l : List ℤ) (f w : ℤ) (hle : ∀ g ∈ l, g ≤ f) :
    l.filter (fun g => decide (f - (w - 1) ≤ g)) = window_hits l f w := by
  unfold window_hits
  refine List.filter_congr ?_
  intro x hx
  have hx2 : (x ≤ f) = True := eq_true (hle x hx)
  simp [hx2]

/-- C2: window persistence.  For a track in persist-mode "window" whose
recorded hit frames are all at most the current frame `f` (frames arrive
in non-decreasing order), an update appends `f` to the hit frames; while
unconfirmed, the update confirms exactly when the number of hit frames in
the trailing window `[f - (w - 1), f]` (current frame included) reaches
the threshold `h`, with `confirmed_start_frame` the minimum hit frame of
that window, and leaves the confirmation fields untouched below the
threshold; once confirmed the confirmation fields never change while the
diagnostic `max_hits_in_window` is still recomputed on every later
update. -/
theorem window_persistence_spec (t : Track) (f : ℤ) (ts : ℚ) (det : Cand) (n h w : ℤ)
    (hpm : t.persist_mode = "window")
    (hmono : ∀ g ∈ t.hit_frames, g ≤ f) :
    (t.update f ts det n h w).hit_frames = t.hit_frames ++ [f] ∧
    (t.confirmed_at_frame = none →
      (((t.update f ts det n h w).confirmed_at_frame = some f ↔
          ((window_hits (t.hit_frames ++ [f]) f w).length : ℤ) ≥ h) ∧
        (((window_hits (t.hit_frames ++ [f]) f w).length : ℤ) ≥ h →
          (t.update f ts det n h w).confirmed_start_frame =
            (window_hits (t.hit_frames ++ [f]) f w).min?) ∧
        (((window_hits (t.hit_frames ++ [f]) f w).length : ℤ) < h →
          (t.update f ts det n h w).confirmed_at_frame = none ∧
          (t.update f ts det n h w).confirmed_start_frame =
            t.confirmed_start_frame))) ∧
    (∀ c, t.confirmed_at_frame = some c →
      (t.update f ts det n h w).confirmed_at_frame = some c ∧
      (t.update f ts det n h w).confirmed_start_frame = t.confirmed_start_frame ∧
      (t.update f ts det n h w).max_hits_in_window =
        max t.max_hits_in_window
          ((window_hits (t.hit_frames ++ [f]) f w).length : ℤ)) := by
  obtain ⟨-, -, -, -, -, hbhf, hbcaf, hbcsf, hbpm, -, -, -, -⟩ :=
    update_base_fields t f ts det
  obtain ⟨-, -, -, -, -, hchf, -, -, -, -, -⟩ :=
    update_confirm_preserves (t.update_base f ts det) f n h w
  have hu : t.update f ts det n h w =
      (t.update_base f ts det).update_confirm f n h w := rfl
  have hmono2 : ∀ g ∈ t.hit_frames ++ [f], g ≤ f := by
    intro g hg
    rcases List.mem_append.mp hg with hg | hg
    · exact hmono g hg
    · rw [List.mem_singleton.mp hg]
  have hfe : (t.update_base f ts det).hit_frames.filter
      (fun g => decide (f - (w - 1) ≤ g)) = window_hits (t.hit_frames ++ [f]) f w := by
    rw [hbhf]
    exact window_hits_eq_filter _ f w hmono2
  refine ⟨?_, ?_, ?_⟩
  · rw [hu, hchf, hbhf]
  · intro hnone
    obtain ⟨hcw, hsw⟩ := update_confirm_window (t.update_base f ts det) f n h w
      (by rw [hbpm, hpm]) (by rw [hbcaf, hnone])
    rw [hfe] at hcw hsw
    refine ⟨⟨?_, ?_⟩, ?_, ?_⟩
    · intro hcaf
      by_contra hlt
      push_neg at hlt
      rw [hu] at hcaf
      rw [(hsw hlt).1] at hcaf
      exact Option.noConfusion hcaf
    · intro hge
      rw [hu]
      exact (hcw hge).1
    · intro hge
      rw [hu]
      exact (hcw hge).2
    · intro hlt
      rw [hu, (hsw hlt).1, (hsw hlt).2, hbcsf]
      exact ⟨rfl, rfl⟩
  · intro c hc
    obtain ⟨hl1, hl2⟩ := update_confirm_latch (t.update_base f ts det) c f n h w
      (by rw [hbcaf, hc])
    have hdiag := update_confirm_window_diag (t.update_base f ts det) f n h w
      (by rw [hbpm, hpm])
    rw [hfe] at hdiag
    have hbmax : (t.update_base f ts det).max_hits_in_window = t.max_hits_in_window := by
      unfold Track.update_base
      by_cases hconf : det.confidence > t.max_confidence <;> simp [hconf]
    rw [hu]
    exact ⟨hl1, by rw [hl2, hbcsf], by rw [hdiag, hbmax]⟩

/-- A concrete unconfirmed window-mode track used by witnesses: the state
right after spawning at frame 0 with hit threshold 2 and window 10. -/
def wtrackw : Track := Track.spawn 1 0 0 wdet "class" "window" 3 2 10

/-- Witness for C2: the second hit at frame 1 puts two hit frames in the
trailing window, reaching the threshold 2, so the track confirms at frame
1 with the window minimum as start. -/
theorem window_persistence_spec_witness :
    (wtrackw.update 1 0 wdet 3 2 10).hit_frames = wtrackw.hit_frames ++ [1] ∧
    (wtrackw.update 1 0 wdet 3 2 10).confirmed_at_frame = some 1 ∧
    (wtrackw.update 1 0 wdet 3 2 10).confirmed_start_frame =
      (window_hits (wtrackw.hit_frames ++ [1]) 1 10).min? := by
  have h := window_persistence_spec wtrackw 1 0 wdet 3 2 10 (by decide) (by decide)
  exact ⟨h.1, (h.2.1 (by decide)).1.mpr (by decide),
    (h.2.1 (by decide)).2.1 (by decide)⟩

/-- Center of a raw detection as computed by the candidate loop
(source line 400). -/
def det_center (d : RawDet) : ℚ × ℚ :=
  bbox_center_xyxy d.x1 d.y1 d.x2 d.y2

/-- The candidate produced by the gate, if any. -/
def cand_of (poly : List (ℚ × ℚ)) (conf_floor : ℚ) (frame_index : ℤ)
    (timestamp_s : ℚ) (d : RawDet) : Option Cand :=
  match filter_det poly conf_floor frame_index timestamp_s d with
  | .candidate c => some c
  | _ => none

theorem filter_det_roi (poly : List (ℚ × ℚ)) (conf_floor : ℚ) (fi : ℤ) (ts : ℚ)
    (d : RawDet) (hout : point_in_polygon (det_center d).1 (det_center d).2 poly = false) :
    filter_det poly conf_floor fi ts d = .discardedByRoi := by
  unfold filter_det
  rw [show bbox_center_xyxy d.x1 d.y1 d.x2 d.y2 = det_center d from rfl]
  dsimp only
  rw [hout]
  simp

theorem filter_det_conf (poly : List (ℚ × ℚ)) (conf_floor : ℚ) (fi : ℤ) (ts : ℚ)
    (d : RawDet) (hin : point_in_polygon (det_center d).1 (det_center d).2 poly = true)
    (hlow : d.confidence < conf_floor) :
    filter_det poly conf_floor fi ts d = .discardedByConf := by
  unfold filter_det
  rw [show bbox_center_xyxy d.x1 d.y1 d.x2 d.y2 = det_center d from rfl]
  dsimp only
  rw [hin]
  simp [hlow]

theorem filter_det_cand (poly : List (ℚ × ℚ)) (conf_floor : ℚ) (fi : ℤ) (ts : ℚ)
    (d : RawDet) (hin : point_in_polygon (det_center d).1 (det_center d).2 poly = true)
    (hok : conf_floor ≤ d.confidence) :
    filter_det poly conf_floor fi ts d = .candidate (mk_cand fi ts d) := by
  unfold filter_det
  rw [show bbox_center_xyxy d.x1 d.y1 d.x2 d.y2 = det_center d from rfl]
  dsimp only
  rw [hin]
  simp [not_lt.mpr hok]

theorem build_candidates_loop (poly : List (ℚ × ℚ)) (conf_floor : ℚ) (fi : ℤ) (ts : ℚ)
    (dets : List RawDet) (cs : List Cand) (r c : ℕ) :
    dets.foldl
      (fun acc d =>
        match filter_det poly conf_floor fi ts d with
        | .discardedByRoi => (acc.1, acc.2.1 + 1, acc.2.2)
        | .discardedByConf => (acc.1, acc.2.1, acc.2.2 + 1)
        | .candidate c => (acc.1 ++ [c], acc.2.1, acc.2.2))
      (cs, r, c) =
    (cs ++ dets.filterMap (cand_of poly conf_floor fi ts),
     r + dets.countP
       (fun d => !(point_in_polygon (det_center d).1 (det_center d).2 poly)),
     c + dets.countP
       (fun d => point_in_polygon (det_center d).1 (det_center d).2 poly &&
          decide (d.confidence < conf_floor))) := by
  induction dets generalizing cs r c with
  | nil => simp
  | cons d ds ih =>
    rw [List.foldl_cons]
    dsimp only
    by_cases hpip : point_in_polygon (det_center d).1 (det_center d).2 poly = true
    · by_cases hconf : d.confidence < conf_floor
      · have hfd := filter_det_conf poly conf_floor fi ts d hpip hconf
        rw [hfd]
        dsimp only
        rw [ih]
        simp [List.filterMap_cons, List.countP_cons, cand_of, hfd, hpip, hconf,
          Prod.mk.injEq]
        try omega
      · have hfd := filter_det_cand poly conf_floor fi ts d hpip (not_lt.mp hconf)
        rw [hfd]
        dsimp only
        rw [ih]
        simp [List.filterMap_cons, List.countP_cons, cand_of, hfd, hpip, hconf,
          Prod.mk.injEq]
        try omega
    · have hout : point_in_polygon (det_center d).1 (det_center d).2 poly = false := by
        simpa using hpip
      have hfd := filter_det_roi poly conf_floor fi ts d hout
      rw [hfd]
      dsimp only
      rw [ih]
      simp [List.filterMap_cons, List.countP_cons, cand_of, hfd, hout,
        Prod.mk.injEq]
      try omega

/-- C4: candidate filter.  Per frame, the candidate list is exactly the
detections passing both gates in order, `discarded_by_roi` counts the
detections whose center falls outside the ROI polygon (these never become
candidates, whatever their confidence), `discarded_by_conf` counts the
in-ROI detections with confidence strictly below the floor, and an in-ROI
detection with confidence greater than or equal to the floor (equality
included) becomes a candidate. -/
theorem candidate_filter_spec (poly : List (ℚ × ℚ)) (conf_floor : ℚ) (fi : ℤ) (ts : ℚ)
    (dets : List RawDet) (d : RawDet) :
    build_candidates poly conf_floor fi ts dets =
      (dets.filterMap (cand_of poly conf_floor fi ts),
       dets.countP
         (fun d => !(point_in_polygon (det_center d).1 (det_center d).2 poly)),
       dets.countP
         (fun d => point_in_polygon (det_center d).1 (det_center d).2 poly &&
            decide (d.confidence < conf_floor))) ∧
    (point_in_polygon (det_center d).1 (det_center d).2 poly = false →
      filter_det poly conf_floor fi ts d = .discardedByRoi ∧
      cand_of poly conf_floor fi ts d = none) ∧
    (point_in_polygon (det_center d).1 (det_center d).2 poly = true →
      d.confidence < conf_floor →
      filter_det poly conf_floor fi ts d = .discardedByConf ∧
      cand_of poly conf_floor fi ts d = none) ∧
    (point_in_polygon (det_center d).1 (det_center d).2 poly = true →
      conf_floor ≤ d.confidence →
      filter_det poly conf_floor fi ts d = .candidate (mk_cand fi ts d) ∧
      cand_of poly conf_floor fi ts d = some (mk_cand fi ts d)) := by
  refine ⟨?_, ?_, ?_, ?_⟩
  · have h := build_candidates_loop poly conf_floor fi ts dets [] 0 0
    unfold build_candidates
    simpa using h
  · intro hout
    have hfd := filter_det_roi poly conf_floor fi ts d hout
    exact ⟨hfd, by simp [cand_of, hfd]⟩
  · intro hin hlow
    have hfd := filter_det_conf poly conf_floor fi ts d hin hlow
    exact ⟨hfd, by simp [cand_of, hfd]⟩
  · intro hin hok
    have hfd := filter_det_cand poly conf_floor fi ts d hin hok
    exact ⟨hfd, by simp [cand_of, hfd]⟩

/-- The square ROI polygon used by witnesses. -/
def wpoly : List (ℚ × ℚ) := [(0, 0), (10, 0), (10, 10), (0, 10)]

/-- An in-ROI raw detection whose confidence equals the floor exactly. -/
def wdet_edge : RawDet :=
  { class_name := "cup", confidence := 15 / 100, x1 := 4, y1 := 4, x2 := 6, y2 := 6 }

/-- An out-of-ROI raw detection with high confidence. -/
def wdet_out : RawDet :=
  { class_name := "cup", confidence := 1, x1 := 14, y1 := 4, x2 := 16, y2 := 6 }

/-- Witness for C4: a high-confidence detection centered outside the
square ROI is discarded by ROI, and an in-ROI detection with confidence
exactly equal to the floor becomes a candidate. -/
theorem candidate_filter_spec_witness :
    (filter_det wpoly (15 / 100) 0 0 wdet_out = .discardedByRoi ∧
      cand_of wpoly (15 / 100) 0 0 wdet_out = none) ∧
    (filter_det wpoly (15 / 100) 0 0 wdet_edge = .candidate (mk_cand 0 0 wdet_edge) ∧
      cand_of wpoly (15 / 100) 0 0 wdet_edge = some (mk_cand 0 0 wdet_edge)) := by
  constructor
  · exact (candidate_filter_spec wpoly (15 / 100) 0 0 [] wdet_out).2.1
      (by norm_num [point_in_polygon, polygon_edges, edge_crosses, List.rotate,
        det_center, bbox_center_xyxy, wdet_out, wpoly])
  · exact (candidate_filter_spec wpoly (15 / 100) 0 0 [] wdet_edge).2.2.2
      (by norm_num [point_in_polygon, polygon_edges, edge_crosses, List.rotate,
        det_center, bbox_center_xyxy, wdet_edge, wpoly])
      (by norm_num [wdet_edge])

theorem best_match_none_iff (det : Cand) (dpx : ℚ) (l : List Track) :
    best_match det dpx l = none ↔ ∀ t ∈ l, t.can_match det dpx = false := by
  induction l with
  | nil => simp [best_match]
  | cons t0 ts ih =>
    unfold best_match
    dsimp only
    by_cases hm : t0.can_match det dpx
    · rw [if_pos hm]
      constructor
      · intro h
        exfalso
        cases hrest : (best_match det dpx ts).map
            (fun r => (r.1 + 1, r.2)) with
        | none => rw [hrest] at h; exact Option.noConfusion h
        | some r => rw [hrest] at h; cases r with
          | mk j r2 => cases r2 with
            | mk u dj =>
              dsimp only at h
              split_ifs at h <;> simp at h
      · intro h
        exact absurd hm (by simp [h t0 (List.mem_cons_self t0 ts)])
    · rw [if_neg hm]
      rw [Option.map_eq_none']
      rw [ih]
      constructor
      · intro h u hu
        rcases List.mem_cons.mp hu with hu | hu
        · rw [hu]
          exact Bool.not_eq_true _ ▸ eq_false_of_ne_true hm
        · exact h u hu
      · intro h u hu
        exact h u (List.mem_cons_of_mem t0 hu)

theorem best_match_some_spec (det : Cand) (dpx : ℚ) (l : List Track) :
    ∀ i t d, best_match det dpx l = some (i, t, d) →
      l[i]? = some t ∧ t.can_match det dpx = true ∧ d = t.match_distanceSq det ∧
      ∀ u ∈ l, u.can_match det dpx = true → d ≤ u.match_distanceSq det := by
  induction l with
  | nil =>
    intro i t d h
    exact absurd h (by simp [best_match])
  | cons t0 ts ih =>
    intro i t d h
    unfold best_match at h
    dsimp only at h
    by_cases hm : t0.can_match det dpx
    · rw [if_pos hm] at h
      cases hrest : best_match det dpx ts with
      | none =>
        rw [hrest] at h
        simp only [Option.map_none', Option.some.injEq, Prod.mk.injEq] at h
        obtain ⟨rfl, rfl, rfl⟩ := h
        refine ⟨by simp, hm, rfl, ?_⟩
        intro u hu hcm
        rcases List.mem_cons.mp hu with rfl | hu
        · exact le_refl _
        · exact absurd hcm
            (by simp [(best_match_none_iff det dpx ts).mp hrest u hu])
      | some r =>
        obtain ⟨j, u0, dj⟩ := r
        obtain ⟨hju, hcm0, hdj, hmin⟩ := ih j u0 dj hrest
        rw [hrest] at h
        simp only [Option.map_some'] at h
        by_cases hlt : dj < t0.match_distanceSq det
        · rw [if_pos hlt] at h
          simp only [Option.some.injEq, Prod.mk.injEq] at h
          obtain ⟨rfl, rfl, rfl⟩ := h
          refine ⟨by simpa using hju, hcm0, hdj, ?_⟩
          intro u hu hcm
          rcases List.mem_cons.mp hu with rfl | hu
          · exact le_of_lt hlt
          · exact hmin u hu hcm
        · rw [if_neg hlt] at h
          simp only [Option.some.injEq, Prod.mk.injEq] at h
          obtain ⟨rfl, rfl, rfl⟩ := h
          refine ⟨by simp, hm, rfl, ?_⟩
          intro u hu hcm
          rcases List.mem_cons.mp hu with rfl | hu
          · exact le_refl _
          · exact le_trans (not_lt.mp hlt) (hmin u hu hcm)
    · rw [if_neg hm] at h
      rw [Option.map_eq_some'] at h
      obtain ⟨⟨j, u0, dj⟩, hrest, heq⟩ := h
      simp only [Prod.mk.injEq] at heq
      obtain ⟨rfl, rfl, rfl⟩ := heq
      obtain ⟨hju, hcm0, hdj, hmin⟩ := ih j u0 dj hrest
      refine ⟨by simpa using hju, hcm0, hdj, ?_⟩
      intro u hu hcm
      rcases List.mem_cons.mp hu with rfl | hu
      · exact absurd hcm (by simpa using hm)
      · exact hmin u hu hcm

theorem spawn_track_id (id0 : ℕ) (f0 : ℤ) (ts0 : ℚ) (det0 : Cand)
    (tm pm : String) (n h w : ℤ) :
    (Track.spawn id0 f0 ts0 det0 tm pm n h w).track_id = id0 := by
  obtain ⟨-, -, -, -, -, -, -, -, -, hbid, -, -, -⟩ :=
    update_base_fields (Track.mk0 id0 f0 ts0 det0 tm pm) f0 ts0 det0
  obtain ⟨-, -, -, -, -, -, -, -, -, -, hcid⟩ :=
    update_confirm_preserves ((Track.mk0 id0 f0 ts0 det0 tm pm).update_base f0 ts0 det0)
      f0 n h w
  have : Track.spawn id0 f0 ts0 det0 tm pm n h w =
      ((Track.mk0 id0 f0 ts0 det0 tm pm).update_base f0 ts0 det0).update_confirm
        f0 n h w := rfl
  rw [this, hcid, hbid]
  rfl

theorem end_frame_loop (gap : ℤ) (mids : List ℕ) (l : List Track)
    (fin acc : List Track) :
    l.foldl
      (fun acc t =>
        let t := bump_missed mids t
        if t.missed > gap then (acc.1 ++ [t], acc.2)
        else (acc.1, acc.2 ++ [t]))
      (fin, acc) =
    (fin ++ (l.map (bump_missed mids)).filter (fun t => decide (gap < t.missed)),
     acc ++ (l.map (bump_missed mids)).filter (fun t => !(decide (gap < t.missed)))) := by
  induction l generalizing fin acc with
  | nil => simp
  | cons t ts ih =>
    rw [List.foldl_cons]
    dsimp only
    by_cases hb : (bump_missed mids t).missed > gap
    · rw [if_pos hb, ih]
      simp [hb]
    · rw [if_neg hb, ih]
      simp [hb]

/-- C3: association engine per-frame step.  A candidate matches no active
track exactly when `can_match` fails on all of them, and then spawns a
fresh track (immediately appended to the active list, with the fresh id
recorded as matched); otherwise the candidate goes to a matching active
track of minimal distance, which is updated in place and recorded as
matched.  After the candidates of a frame, every active track whose id was
not matched gets `missed` incremented, tracks with `missed > gap_frames`
move to `finished` and the rest stay active; at stream end every remaining
active track is flushed to `finished` unconditionally. -/
theorem association_engine_spec (cfg : Config) (fi : ℤ) (ts : ℚ) (s : AssocState)
    (det : Cand) (poly : List (ℚ × ℚ)) (frames : List Frame) :
    (best_match det cfg.dist_px s.active = none ↔
      ∀ t ∈ s.active, t.can_match det cfg.dist_px = false) ∧
    (∀ i t d, best_match det cfg.dist_px s.active = some (i, t, d) →
      s.active[i]? = some t ∧ t.can_match det cfg.dist_px = true ∧
      d = t.match_distanceSq det ∧
      (∀ u ∈ s.active, u.can_match det cfg.dist_px = true →
        d ≤ u.match_distanceSq det) ∧
      process_candidate cfg fi ts s det =
        { s with
          active := s.active.set i
            (t.update fi ts det cfg.n_consec cfg.hits cfg.window)
          matched_ids := t.track_id :: s.matched_ids }) ∧
    (best_match det cfg.dist_px s.active = none →
      process_candidate cfg fi ts s det =
        { s with
          active := s.active ++ [Track.spawn s.next_track_id fi ts det
            cfg.track_mode cfg.persist_mode cfg.n_consec cfg.hits cfg.window]
          next_track_id := s.next_track_id + 1
          matched_ids := s.next_track_id :: s.matched_ids }) ∧
    (∀ t : Track,
      (t.track_id ∈ s.matched_ids → bump_missed s.matched_ids t = t) ∧
      (t.track_id ∉ s.matched_ids →
        bump_missed s.matched_ids t = { t with missed := t.missed + 1 })) ∧
    (end_frame cfg s =
      { active := (s.active.map (bump_missed s.matched_ids)).filter
          (fun t => !(decide (cfg.gap_frames < t.missed)))
        finished := s.finished ++ (s.active.map (bump_missed s.matched_ids)).filter
          (fun t => decide (cfg.gap_frames < t.missed))
        next_track_id := s.next_track_id
        matched_ids := [] }) ∧
    ((run_stream cfg poly frames).active = [] ∧
      (run_stream cfg poly frames).finished =
        (frames.foldl (process_frame cfg poly) init_state).finished ++
          (frames.foldl (process_frame cfg poly) init_state).active) := by
  refine ⟨best_match_none_iff det cfg.dist_px s.active, ?_, ?_, ?_, ?_, rfl, rfl⟩
  · intro i t d hbm
    obtain ⟨h1, h2, h3, h4⟩ := best_match_some_spec det cfg.dist_px s.active i t d hbm
    refine ⟨h1, h2, h3, h4, ?_⟩
    unfold process_candidate
    rw [hbm]
  · intro hbm
    unfold process_candidate
    rw [hbm]
    dsimp only
    rw [spawn_track_id]
  · intro t
    constructor
    · intro hmem
      unfold bump_missed
      rw [if_pos hmem]
    · intro hmem
      unfold bump_missed
      rw [if_neg hmem]
  · unfold end_frame
    dsimp only
    rw [end_frame_loop cfg.gap_frames s.matched_ids s.active s.finished []]
    simp

/-- A concrete configuration used by witnesses (the CLI defaults). -/
def wcfg : Config :=
  { conf := 15 / 100, dist_px := 120, gap_frames := 2, track_mode := "class",
    persist_mode := "consecutive", n_consec := 3, hits := 2, window := 10 }

/-- A concrete track literal used by the association witness: one hit at
frame 0 with center (5, 5). -/
def wtrack0 : Track :=
  { track_id := 1, track_mode := "class", persist_mode := "consecutive",
    start_frame := 0, end_frame := 0, start_time_s := 0, end_time_s := 0,
    last_frame_seen := 0, missed := 0, members := [], max_confidence := 1,
    rep_frame := 0, rep_bbox := (4, 4, 6, 6), rep_class_name := "cup",
    class_hist := [("cup", 1)], last_center := (5, 5), hits_total := 1,
    hits_consec := 1, max_hits_consec := 1, hit_frames := [0],
    confirmed_at_frame := none, confirmed_start_frame := none,
    max_hits_in_window := 1 }

/-- A concrete association state with one active track. -/
def wstate : AssocState :=
  { active := [wtrack0], finished := [], next_track_id := 2, matched_ids := [] }

/-- Witness for C3: against the single-track state, the candidate at the
same center matches track 0, and processing it updates that track in
place and marks its id matched. -/
theorem association_engine_spec_witness :
    wstate.active[0]? = some wtrack0 ∧
    wtrack0.can_match wdet wcfg.dist_px = true ∧
    process_candidate wcfg 1 0 wstate wdet =
      { wstate with
        active := wstate.active.set 0
          (wtrack0.update 1 0 wdet wcfg.n_consec wcfg.hits wcfg.window)
        matched_ids := wtrack0.track_id :: wstate.matched_ids } := by
  have hbm : best_match wdet wcfg.dist_px wstate.active =
      some (0, wtrack0, wtrack0.match_distanceSq wdet) := by
    norm_num [best_match, wstate, wtrack0, wdet, wcfg, Track.can_match,
      distLe, distSq, Track.match_distanceSq]
  obtain ⟨h1, h2, -, -, h5⟩ :=
    (association_engine_spec wcfg 1 0 wstate wdet [] []).2.1 0 wtrack0
      (wtrack0.match_distanceSq wdet) hbm
  exact ⟨h1, h2, h5⟩

theorem update_confirm_preserves2 (t : Track) (f n h w : ℤ) :
    (t.update_confirm f n h w).track_mode = t.track_mode ∧
    (t.update_confirm f n h w).rep_class_name = t.rep_class_name ∧
    (t.update_confirm f n h w).last_center = t.last_center ∧
    (t.update_confirm f n h w).missed = t.missed ∧
    (t.update_confirm f n h w).max_confidence = t.max_confidence ∧
    (t.update_confirm f n h w).rep_bbox = t.rep_bbox := by
  unfold Track.update_confirm Track.update_max_hits_in_window
  cases t.confirmed_at_frame <;> dsimp only <;> split_ifs <;> simp

theorem spawn_fields (id0 : ℕ) (f0 : ℤ) (ts0 : ℚ) (det0 : Cand) (tm pm : String)
    (n h w : ℤ) :
    (Track.spawn id0 f0 ts0 det0 tm pm n h w).track_mode = tm ∧
    (Track.spawn id0 f0 ts0 det0 tm pm n h w).persist_mode = pm ∧
    (Track.spawn id0 f0 ts0 det0 tm pm n h w).last_frame_seen = f0 ∧
    (Track.spawn id0 f0 ts0 det0 tm pm n h w).hit_frames = [f0] ∧
    (Track.spawn id0 f0 ts0 det0 tm pm n h w).last_center = det0.center_xy ∧
    (Track.spawn id0 f0 ts0 det0 tm pm n h w).rep_class_name = det0.class_name ∧
    (Track.spawn id0 f0 ts0 det0 tm pm n h w).hits_consec = 1 ∧
    (Track.spawn id0 f0 ts0 det0 tm pm n h w).members.length = 1 := by
  have hs : Track.spawn id0 f0 ts0 det0 tm pm n h w =
      ((Track.mk0 id0 f0 ts0 det0 tm pm).update_base f0 ts0 det0).update_confirm
        f0 n h w := rfl
  obtain ⟨-, -, -, hcl, hchc, hchf, hcm, -, -, hcpm, -⟩ :=
    update_confirm_preserves ((Track.mk0 id0 f0 ts0 det0 tm pm).update_base f0 ts0 det0)
      f0 n h w
  obtain ⟨hctm, hcrc, hclc, -, -, -⟩ :=
    update_confirm_preserves2 ((Track.mk0 id0 f0 ts0 det0 tm pm).update_base f0 ts0 det0)
      f0 n h w
  rw [hs, hctm, hcpm, hcl, hchf, hclc, hcrc, hchc, hcm]
  unfold Track.update_base Track.mk0
  have hnotgt : ¬ det0.confidence > det0.confidence := lt_irrefl _
  simp [hnotgt]

theorem spawn_window_unconfirmed (id0 : ℕ) (f0 : ℤ) (ts0 : ℚ) (det0 : Cand)
    (tm : String) (n h w : ℤ) (hw : 1 ≤ w) (hh : 2 ≤ h) :
    (Track.spawn id0 f0 ts0 det0 tm "window" n h w).confirmed_at_frame = none ∧
    (Track.spawn id0 f0 ts0 det0 tm "window" n h w).confirmed_start_frame = none := by
  have hs : Track.spawn id0 f0 ts0 det0 tm "window" n h w =
      ((Track.mk0 id0 f0 ts0 det0 tm "window").update_base f0 ts0 det0).update_confirm
        f0 n h w := rfl
  obtain ⟨-, -, -, -, -, hbhf, hbcaf, hbcsf, hbpm, -, -, -, -⟩ :=
    update_base_fields (Track.mk0 id0 f0 ts0 det0 tm "window") f0 ts0 det0
  have hfilter : ((Track.mk0 id0 f0 ts0 det0 tm "window").update_base
      f0 ts0 det0).hit_frames.filter (fun g => decide (f0 - (w - 1) ≤ g)) = [f0] := by
    rw [hbhf]
    have hmk : (Track.mk0 id0 f0 ts0 det0 tm "window").hit_frames = ([] : List ℤ) := rfl
    rw [hmk]
    simp
    omega
  obtain ⟨-, hsw⟩ := update_confirm_window
    ((Track.mk0 id0 f0 ts0 det0 tm "window").update_base f0 ts0 det0) f0 n h w
    (by rw [hbpm]; rfl) (by rw [hbcaf]; rfl)
  rw [hfilter] at hsw
  have hlt : (([f0] : List ℤ).length : ℤ) < h := by
    simp
    omega
  obtain ⟨h1, h2⟩ := hsw hlt
  rw [hs, h1, h2, hbcsf]
  exact ⟨rfl, rfl⟩

/-- The track produced when two candidates of the same frame `f` hit the
same freshly spawned track: spawn from the first candidate, then update
with the second in the same frame. -/
def double_hit_track (cfg : Config) (f : ℤ) (ts : ℚ) (c1 c2 : Cand) : Track :=
  (Track.spawn 1 f ts c1 cfg.track_mode cfg.persist_mode cfg.n_consec cfg.hits
    cfg.window).update f ts c2 cfg.n_consec cfg.hits cfg.window

/-- C10: a track spawned for an earlier candidate of a frame is
immediately visible to later candidates of the same frame.  Starting from
an empty active set in window mode with hit threshold 2 and a positive
window, the first candidate spawns a track and the second candidate of
the same frame (same class, within distance) is matched to it; the update
sees `frame = last_frame_seen` (not one greater), so `hits_consec` resets
to 1 while the frame is appended a second time to `hit_frames` and
`members` — and both duplicate entries count, so the track confirms on
this single frame. -/
theorem same_frame_double_hit (cfg : Config) (f : ℤ) (ts : ℚ) (c1 c2 : Cand)
    (hpm : cfg.persist_mode = "window") (hh : cfg.hits = 2) (hw : 1 ≤ cfg.window)
    (hcls : c2.class_name = c1.class_name)
    (hdist : distLe c1.center_xy c2.center_xy cfg.dist_px = true) :
    (process_candidate cfg f ts
        { active := [], finished := [], next_track_id := 1, matched_ids := [] }
        c1).active =
      [Track.spawn 1 f ts c1 cfg.track_mode cfg.persist_mode cfg.n_consec cfg.hits
        cfg.window] ∧
    (process_candidate cfg f ts
        (process_candidate cfg f ts
          { active := [], finished := [], next_track_id := 1, matched_ids := [] }
          c1)
        c2).active = [double_hit_track cfg f ts c1 c2] ∧
    (double_hit_track cfg f ts c1 c2).hits_consec = 1 ∧
    (double_hit_track cfg f ts c1 c2).hit_frames = [f, f] ∧
    (double_hit_track cfg f ts c1 c2).members.length = 2 ∧
    (double_hit_track cfg f ts c1 c2).confirmed_at_frame = some f ∧
    (double_hit_track cfg f ts c1 c2).confirmed_start_frame = some f := by
  obtain ⟨htm, hpm1, hlfs, hhf, hlc, hrc, hhc, hml⟩ :=
    spawn_fields 1 f ts c1 cfg.track_mode cfg.persist_mode cfg.n_consec cfg.hits
      cfg.window
  have hcm : (Track.spawn 1 f ts c1 cfg.track_mode cfg.persist_mode cfg.n_consec
      cfg.hits cfg.window).can_match c2 cfg.dist_px = true := by
    unfold Track.can_match
    rw [htm, hlc, hrc, hcls]
    split_ifs with h1 h2
    · exact absurd rfl h2
    · exact hdist
    · exact hdist
  have hbm : best_match c2 cfg.dist_px [Track.spawn 1 f ts c1 cfg.track_mode
      cfg.persist_mode cfg.n_consec cfg.hits cfg.window] =
      some (0, Track.spawn 1 f ts c1 cfg.track_mode cfg.persist_mode cfg.n_consec
        cfg.hits cfg.window,
        (Track.spawn 1 f ts c1 cfg.track_mode cfg.persist_mode cfg.n_consec
          cfg.hits cfg.window).match_distanceSq c2) := by
    simp [best_match, hcm]
  have hs1 : (process_candidate cfg f ts
      { active := [], finished := [], next_track_id := 1, matched_ids := [] }
      c1).active =
      [Track.spawn 1 f ts c1 cfg.track_mode cfg.persist_mode cfg.n_consec cfg.hits
        cfg.window] := rfl
  -- facts about the second update
  have hcaf0 : (Track.spawn 1 f ts c1 cfg.track_mode cfg.persist_mode cfg.n_consec
      cfg.hits cfg.window).confirmed_at_frame = none := by
    rw [hpm]
    exact (spawn_window_unconfirmed 1 f ts c1 cfg.track_mode cfg.n_consec cfg.hits
      cfg.window hw (by omega)).1
  obtain ⟨-, -, -, -, -, hbhf, hbcaf, hbcsf, hbpm, -, hbhc, -, hbmem⟩ :=
    update_base_fields (Track.spawn 1 f ts c1 cfg.track_mode cfg.persist_mode
      cfg.n_consec cfg.hits cfg.window) f ts c2
  obtain ⟨-, -, -, -, hchc, hchf, hcmem, -, -, -, -⟩ :=
    update_confirm_preserves ((Track.spawn 1 f ts c1 cfg.track_mode cfg.persist_mode
      cfg.n_consec cfg.hits cfg.window).update_base f ts c2) f cfg.n_consec cfg.hits
      cfg.window
  have hud : double_hit_track cfg f ts c1 c2 =
      ((Track.spawn 1 f ts c1 cfg.track_mode cfg.persist_mode cfg.n_consec cfg.hits
        cfg.window).update_base f ts c2).update_confirm f cfg.n_consec cfg.hits
        cfg.window := rfl
  have hfilter : ((Track.spawn 1 f ts c1 cfg.track_mode cfg.persist_mode cfg.n_consec
      cfg.hits cfg.window).update_base f ts c2).hit_frames.filter
      (fun g => decide (f - (cfg.window - 1) ≤ g)) = [f, f] := by
    rw [hbhf, hhf]
    have hpass : f - (cfg.window - 1) ≤ f := by omega
    simp [hpass]
    omega
  obtain ⟨hcw, -⟩ := update_confirm_window
    ((Track.spawn 1 f ts c1 cfg.track_mode cfg.persist_mode cfg.n_consec cfg.hits
      cfg.window).update_base f ts c2) f cfg.n_consec cfg.hits cfg.window
    (by rw [hbpm, hpm1, hpm]) (by rw [hbcaf, hcaf0])
  rw [hfilter] at hcw
  have hge : (([f, f] : List ℤ).length : ℤ) ≥ cfg.hits := by
    simp
    omega
  obtain ⟨hcaf2, hcsf2⟩ := hcw hge
  refine ⟨hs1, ?_, ?_, ?_, ?_, ?_, ?_⟩
  · have hstep : ∀ s : AssocState,
        s.active = [Track.spawn 1 f ts c1 cfg.track_mode cfg.persist_mode
          cfg.n_consec cfg.hits cfg.window] →
        (process_candidate cfg f ts s c2).active =
          [double_hit_track cfg f ts c1 c2] := by
      intro s hsa
      unfold process_candidate
      rw [hsa, hbm]
      rfl
    exact hstep _ hs1
  · rw [hud, hchc, hbhc, hlfs]
    rw [if_neg (by omega)]
  · rw [hud, hchf, hbhf, hhf]
    rfl
  · rw [hud, hcmem, hbmem]
    simp [hml]
  · rw [hud, hcaf2]
  · rw [hud, hcsf2]
    simp [List.min?]

/-- A concrete window-mode configuration used by witnesses. -/
def wcfgw : Config :=
  { conf := 15 / 100, dist_px := 120, gap_frames := 2, track_mode := "class",
    persist_mode := "window", n_consec := 3, hits := 2, window := 10 }

/-- Witness for C10: two identical candidates on frame 5 produce one track
with a reset streak, duplicated hit frame and two members, confirmed on
that single frame. -/
theorem same_frame_double_hit_witness :
    (double_hit_track wcfgw 5 0 wdet wdet).hits_consec = 1 ∧
    (double_hit_track wcfgw 5 0 wdet wdet).hit_frames = [5, 5] ∧
    (double_hit_track wcfgw 5 0 wdet wdet).members.length = 2 ∧
    (double_hit_track wcfgw 5 0 wdet wdet).confirmed_at_frame = some 5 ∧
    (double_hit_track wcfgw 5 0 wdet wdet).confirmed_start_frame = some 5 := by
  have h := same_frame_double_hit wcfgw 5 0 wdet wdet rfl rfl (by decide) rfl
    (by norm_num [distLe, distSq, wdet, wcfgw])
  exact ⟨h.2.2.1, h.2.2.2.1, h.2.2.2.2.1, h.2.2.2.2.2.1, h.2.2.2.2.2.2⟩

/-- The sort key of an event, as a lexicographically ordered tuple. -/
def event_key (e : RawEvent) : ℤ ×ₗ (String ×ₗ (ℤ ×ₗ ℤ)) :=
  toLex (e.start_frame, toLex (e.class_name, toLex (e.end_frame, e.rep_frame)))

theorem event_key_le_iff (a b : RawEvent) :
    event_key_le a b = true ↔ event_key a ≤ event_key b := by
  unfold event_key_le event_key
  rw [Prod.Lex.le_iff, Prod.Lex.le_iff, Prod.Lex.le_iff]
  simp [Bool.or_eq_true, Bool.and_eq_true, decide_eq_true_iff]

theorem event_key_le_trans (a b c : RawEvent)
    (hab : event_key_le a b = true) (hbc : event_key_le b c = true) :
    event_key_le a c = true := by
  rw [event_key_le_iff] at hab hbc ⊢
  exact le_trans hab hbc

theorem event_key_le_total (a b : RawEvent) :
    (event_key_le a b || event_key_le b a) = true := by
  rcases le_total (event_key a) (event_key b) with h | h
  · rw [Bool.or_eq_true, event_key_le_iff]
    exact Or.inl h
  · rw [Bool.or_eq_true, event_key_le_iff b a]
    exact Or.inr h

theorem assign_ids_from_map (i : ℕ) (l : List RawEvent) :
    (assign_ids_from i l).map Event.toRawEvent = l ∧
    (assign_ids_from i l).map Event.event_id =
      (List.range l.length).map (fun k => event_id_str (i + k)) := by
  induction l generalizing i with
  | nil => simp [assign_ids_from]
  | cons e es ih =>
    obtain ⟨ih1, ih2⟩ := ih (i + 1)
    unfold assign_ids_from
    constructor
    · simp [ih1]
    · simp only [List.map_cons, ih2, List.length_cons, List.range_succ_eq_map,
        List.map_map]
      congr 1
      refine List.map_congr_left ?_
      intro k hk
      simp only [Function.comp]
      congr 1
      omega

/-- C5: event synthesizer ordering and ids.  For every finished track
list, the synthesized event list is sorted ascending by the tuple
`(start_frame, class_name, end_frame, rep_frame)`, and the assigned
`event_id` values are exactly the zero-padded sequence
"ev_0001", "ev_0002", ... following that sorted order. -/
theorem event_synth_spec (finished : List Track) :
    List.Pairwise
      (fun a b : Event => event_key_le a.toRawEvent b.toRawEvent = true)
      (synthesize_events finished) ∧
    (synthesize_events finished).map Event.event_id =
      (List.range (raw_events finished).length).map
        (fun k => event_id_str (1 + k)) ∧
    event_id_str 1 = "ev_0001" ∧ event_id_str 2 = "ev_0002" ∧
    event_id_str 10 = "ev_0010" ∧ event_id_str 123 = "ev_0123" := by
  obtain ⟨hmapraw, hmapid⟩ :=
    assign_ids_from_map 1 (sort_events (raw_events finished))
  have hsorted : List.Pairwise (fun a b => event_key_le a b = true)
      (sort_events (raw_events finished)) :=
    List.sorted_mergeSort event_key_le_trans event_key_le_total
      (raw_events finished)
  refine ⟨?_, ?_, rfl, rfl, rfl, rfl⟩
  · have hp : List.Pairwise (fun a b => event_key_le a b = true)
        ((synthesize_events finished).map Event.toRawEvent) := by
      unfold synthesize_events assign_ids
      rw [hmapraw]
      exact hsorted
    exact List.pairwise_map.mp hp
  · have hlen : (sort_events (raw_events finished)).length =
        (raw_events finished).length :=
      (List.mergeSort_perm (raw_events finished) event_key_le).length_eq
    unfold synthesize_events assign_ids
    rw [hmapid, hlen]

/-- Temporal sanity of a track's member history, as established along any
stream whose timestamps are monotonically non-decreasing: the member list
is nonempty, its last entry records the track's `end_frame` and
`end_time_s`, every member timestamp is at most `end_time_s`, and
`start_time_s` is at most every member timestamp. -/
def TimeInv (t : Track) : Prop :=
  match t.members.getLast? with
  | none => False
  | some last =>
    last.frame_index = t.end_frame ∧ last.timestamp_s = t.end_time_s ∧
    (∀ m ∈ t.members, m.timestamp_s ≤ t.end_time_s) ∧
    (∀ m ∈ t.members, t.start_time_s ≤ m.timestamp_s)

theorem getLast_filter_of_pred {α : Type} (l : List α) (p : α → Bool) (a : α)
    (h : l.getLast? = some a) (hp : p a = true) :
    (l.filter p).getLast? = some a := by
  obtain ⟨ys, rfl⟩ := List.getLast?_eq_some_iff.mp h
  rw [List.filter_append]
  simp [hp]

theorem member_at_mem (t : Track) (f : ℤ) (m : Member)
    (h : member_at t f = some m) : m ∈ t.members ∧ m.frame_index = f := by
  unfold member_at at h
  obtain ⟨ys, hys⟩ := List.getLast?_eq_some_iff.mp h
  have hm : m ∈ t.members.filter (fun m => decide (m.frame_index = f)) := by
    rw [hys]
    simp
  obtain ⟨h1, h2⟩ := List.mem_filter.mp hm
  exact ⟨h1, by simpa using h2⟩

/-- C7: event time ordering.  For every track satisfying the member-time
invariant (which holds whenever input timestamps are monotonically
non-decreasing over the stream), the synthesized event takes its start
time from the member at `confirmed_start_frame` (falling back to the
track's `start_time_s` when no member has that frame), its end time from
the member at `end_frame`, and satisfies
`start_time_s ≤ end_time_s` and `duration_s = end_time_s − start_time_s ≥ 0`. -/
theorem event_times_ordered (t : Track) (ev : RawEvent) (hinv : TimeInv t)
    (hev : mk_raw_event t = some ev) :
    ev.start_time_s ≤ ev.end_time_s ∧
    ev.duration_s = ev.end_time_s - ev.start_time_s ∧
    0 ≤ ev.duration_s ∧
    ev.end_frame = t.end_frame ∧
    ev.start_time_s = (match member_at t ev.start_frame with
      | some m => m.timestamp_s
      | none => t.start_time_s) ∧
    ev.end_time_s = (match member_at t t.end_frame with
      | some m => m.timestamp_s
      | none => t.end_time_s) := by
  unfold TimeInv at hinv
  cases hlast : t.members.getLast? with
  | none => rw [hlast] at hinv; exact absurd hinv (by simp)
  | some last =>
    rw [hlast] at hinv
    obtain ⟨hlf, hlt, hall, hstart⟩ := hinv
    have hlmem : last ∈ t.members := by
      obtain ⟨ys, hys⟩ := List.getLast?_eq_some_iff.mp hlast
      rw [hys]
      simp
    have hmemend : member_at t t.end_frame = some last := by
      unfold member_at
      exact getLast_filter_of_pred t.members _ last hlast (by simp [hlf])
    unfold mk_raw_event at hev
    cases hcaf : t.confirmed_at_frame with
    | none => rw [hcaf] at hev; exact absurd hev (by simp)
    | some caf =>
      cases hcsf : t.confirmed_start_frame with
      | none => rw [hcaf, hcsf] at hev; exact absurd hev (by simp)
      | some csf =>
        rw [hcaf, hcsf] at hev
        dsimp only at hev
        rw [Option.some.injEq] at hev
        subst hev
        dsimp only
        rw [hmemend]
        dsimp only
        rw [hlt]
        have hstart_le : (match member_at t csf with
            | some m => m.timestamp_s
            | none => t.start_time_s) ≤ t.end_time_s := by
          cases hm : member_at t csf with
          | none =>
            dsimp only
            calc t.start_time_s ≤ last.timestamp_s := hstart last hlmem
              _ = t.end_time_s := hlt
          | some m =>
            dsimp only
            exact hall m (member_at_mem t csf m hm).1
        refine ⟨hstart_le, ?_, ?_, rfl, rfl, rfl⟩
        · exact max_eq_right (by linarith)
        · dsimp only
          rw [max_eq_right (by linarith)]
          linarith

theorem timeInv_spawn (id0 : ℕ) (f0 : ℤ) (ts0 : ℚ) (det0 : Cand)
    (tm pm : String) (n h w : ℤ) :
    TimeInv (Track.spawn id0 f0 ts0 det0 tm pm n h w) := by
  have hs : Track.spawn id0 f0 ts0 det0 tm pm n h w =
      ((Track.mk0 id0 f0 ts0 det0 tm pm).update_base f0 ts0 det0).update_confirm
        f0 n h w := rfl
  obtain ⟨-, hbe, -, hbet, hbst, -, -, -, -, -, -, -, hbm⟩ :=
    update_base_fields (Track.mk0 id0 f0 ts0 det0 tm pm) f0 ts0 det0
  obtain ⟨-, hce, -, -, -, -, hcm, hcst, hcet, -, -⟩ :=
    update_confirm_preserves ((Track.mk0 id0 f0 ts0 det0 tm pm).update_base f0 ts0 det0)
      f0 n h w
  unfold TimeInv
  rw [hs, hcm, hbm]
  have hmk : (Track.mk0 id0 f0 ts0 det0 tm pm).members = [] := rfl
  rw [hmk]
  simp only [List.nil_append, List.getLast?_singleton]
  rw [hce, hbe, hcet, hbet, hcst, hbst]
  have hmkst : (Track.mk0 id0 f0 ts0 det0 tm pm).start_time_s = ts0 := rfl
  rw [hmkst]
  simp

theorem timeInv_update (t : Track) (f : ℤ) (ts : ℚ) (det : Cand) (n h w : ℤ)
    (hinv : TimeInv t) (hts : t.end_time_s ≤ ts) :
    TimeInv (t.update f ts det n h w) := by
  unfold TimeInv at hinv
  cases hlast : t.members.getLast? with
  | none => rw [hlast] at hinv; exact absurd hinv (by simp)
  | some last =>
    rw [hlast] at hinv
    obtain ⟨-, hlt, hall, hstart⟩ := hinv
    have hlmem : last ∈ t.members := by
      obtain ⟨ys, hys⟩ := List.getLast?_eq_some_iff.mp hlast
      rw [hys]
      simp
    obtain ⟨-, hbe, -, hbet, hbst, -, -, -, -, -, -, -, hbm⟩ :=
      update_base_fields t f ts det
    obtain ⟨-, hce, -, -, -, -, hcm, hcst, hcet, -, -⟩ :=
      update_confirm_preserves (t.update_base f ts det) f n h w
    have hu : t.update f ts det n h w =
        (t.update_base f ts det).update_confirm f n h w := rfl
    unfold TimeInv
    rw [hu, hcm, hbm, List.getLast?_concat]
    rw [hce, hbe, hcet, hbet, hcst, hbst]
    refine ⟨rfl, rfl, ?_, ?_⟩
    · intro m hm
      rcases List.mem_append.mp hm with hm | hm
      · exact le_trans (hall m hm) hts
      · rw [List.mem_singleton.mp hm]
    · intro m hm
      rcases List.mem_append.mp hm with hm | hm
      · exact hstart m hm
      · rw [List.mem_singleton.mp hm]
        dsimp only
        calc t.start_time_s ≤ last.timestamp_s := hstart last hlmem
          _ = t.end_time_s := hlt
          _ ≤ ts := hts

/-- A concrete member record used by the C7 witness. -/
def wmem7 : Member :=
  { frame_index := 0, timestamp_s := 0, class_name := "cup", confidence := 1,
    bbox_xyxy := (4, 4, 6, 6), center_xy := (5, 5) }

/-- A concrete confirmed track with one member, used by the C7 witness. -/
def wtrack7 : Track :=
  { track_id := 1, track_mode := "class", persist_mode := "consecutive",
    start_frame := 0, end_frame := 0, start_time_s := 0, end_time_s := 0,
    last_frame_seen := 0, missed := 0, members := [wmem7], max_confidence := 1,
    rep_frame := 0, rep_bbox := (4, 4, 6, 6), rep_class_name := "cup",
    class_hist := [("cup", 2)], last_center := (5, 5), hits_total := 1,
    hits_consec := 1, max_hits_consec := 1, hit_frames := [0],
    confirmed_at_frame := some 0, confirmed_start_frame := some 0,
    max_hits_in_window := 1 }

/-- The event synthesized from the concrete track of the C7 witness. -/
def wev7 : RawEvent :=
  { class_name := "cup", start_frame := 0, end_frame := 0, start_time_s := 0,
    end_time_s := 0, duration_s := 0, max_confidence := 1,
    rep_bbox := (4, 4, 6, 6), rep_frame := 0, trigger_frame := 0 }

/-- Witness for C7 at the concrete confirmed track. -/
theorem event_times_ordered_witness :
    TimeInv wtrack7 ∧ mk_raw_event wtrack7 = some wev7 ∧
    wev7.start_time_s ≤ wev7.end_time_s ∧
    wev7.duration_s = wev7.end_time_s - wev7.start_time_s := by
  have hinv : TimeInv wtrack7 := by
    norm_num [TimeInv, wtrack7, wmem7]
  have hev : mk_raw_event wtrack7 = some wev7 := by
    norm_num [mk_raw_event, member_at, wtrack7, wmem7, wev7]
  have h := event_times_ordered wtrack7 wev7 hinv hev
  exact ⟨hinv, hev, h.1, h.2.1⟩
